import Mathlib

/-!
Shallow embedding of the contact-phase timing core of towr:

* `ContactSchedule` (contact_schedule.cc): the optimization-facing wrapper
  around one end-effector's phase durations.  Real-valued quantities (C++
  `double`) are modelled as rationals, Eigen vectors as `List ℚ`, and the
  column-major Eigen matrix built by `GetJacobianOfPos` as a list of columns.
* `EndeffectorsBool` (endeffectors.h): the boolean per-end-effector container
  with `Invert` and `GetTrueCount`.

Stateful C++ methods become explicit state passing: `SetVariables` returns the
updated schedule.  The debug assertion `assert(durations_.back()>0)` inside
`SetVariables` is modelled by `SetVariablesChecked`, which returns `none`
exactly when the assertion fires.
-/

/-- State of `towr::ContactSchedule`.  `rows_` is the row count handed to the
`ifopt::VariableSet` base at construction (`timings.size()-1`); `ee_` stands
for the end-effector identity baked into the variable-set name. -/
structure ContactSchedule where
  ee_ : ℕ
  rows_ : ℕ
  durations_ : List ℚ
  t_total_ : ℚ
  phase_duration_bounds_ : ℚ × ℚ
deriving DecidableEq, Repr

/-- Constructor `ContactSchedule::ContactSchedule`: stores the timings, fixes
`t_total_` as `std::accumulate(timings.begin(), timings.end(), 0.0)` and the
uniform bounds; the `VariableSet` base receives `timings.size()-1` rows. -/
def mkContactSchedule (ee : ℕ) (timings : List ℚ)
    (min_duration max_duration : ℚ) : ContactSchedule :=
  { ee_ := ee
    rows_ := timings.length - 1
    durations_ := timings
    t_total_ := timings.foldl (fun a b => a + b) 0
    phase_duration_bounds_ := (min_duration, max_duration) }

/-- `GetRows()` of the `VariableSet` base: the row count fixed at
construction. -/
def ContactSchedule.GetRows (s : ContactSchedule) : ℕ :=
  s.rows_

/-- `ContactSchedule::GetValues`: `x(i) = durations_.at(i)` for
`i < GetRows()`. -/
def ContactSchedule.GetValues (s : ContactSchedule) : List ℚ :=
  (List.range s.GetRows).map (fun i => s.durations_.getD i 0)

/-- `durations_.back()`: last stored phase duration. -/
def ContactSchedule.back (s : ContactSchedule) : ℚ :=
  s.durations_.getD (s.durations_.length - 1) 0

/-- `ContactSchedule::SetVariables`: `durations_.at(i) = x(i)` for
`i < GetRows()`, then `durations_.back() = t_total_ - x.sum()`.  (The
`UpdateObservers` call touches no schedule state.) -/
def ContactSchedule.SetVariables (s : ContactSchedule) (x : List ℚ) :
    ContactSchedule :=
  let d := (List.range s.GetRows).foldl (fun d i => d.set i (x.getD i 0))
    s.durations_
  { s with durations_ := (d.set (d.length - 1) (s.t_total_ - x.sum)) }

/-- `ContactSchedule::SetVariables` together with its assertion
`assert(durations_.back()>0)`: evaluation aborts (`none`) exactly when the
recomputed last duration is not strictly positive. -/
def ContactSchedule.SetVariablesChecked (s : ContactSchedule) (x : List ℚ) :
    Option ContactSchedule :=
  let s' := s.SetVariables x
  if 0 < s'.back then some s' else none

/-- `ContactSchedule::GetBounds`: the same interval for every row. -/
def ContactSchedule.GetBounds (s : ContactSchedule) : List (ℚ × ℚ) :=
  (List.range s.GetRows).map (fun _ => s.phase_duration_bounds_)

/-- Body of the `for (int phase=0; phase<current_phase; ++phase)` loop of
`ContactSchedule::GetJacobianOfPos`: `jac.col(phase) = -1*xd`, then, when in
the last phase, `jac.col(phase) -= dx_dT`. -/
def jacStep (in_last_phase : Bool) (dx_dT xd : List ℚ)
    (jac : List (List ℚ)) (phase : ℕ) : List (List ℚ) :=
  let jac := jac.set phase (xd.map (fun v => -1 * v))
  if in_last_phase then
    jac.set phase (List.zipWith (fun a b => a - b) (jac.getD phase []) dx_dT)
  else
    jac

/-- Dense matrix built by `ContactSchedule::GetJacobianOfPos` before the
`sparseView` conversion (lines 101-118): a list of `GetRows()` columns of
`xd.rows()` entries each (`jac = MatrixXd::Zero(n_dim, GetRows())` followed
by `jac.col(current_phase) = dx_dT` when not in the last phase, then the
loop over the earlier phases). -/
def ContactSchedule.GetJacobianOfPosDense (s : ContactSchedule)
    (current_phase : ℕ) (dx_dT xd : List ℚ) : List (List ℚ) :=
  let n_dim := xd.length
  let jac : List (List ℚ) := List.replicate s.GetRows (List.replicate n_dim 0)
  let in_last_phase : Bool := current_phase == s.durations_.length - 1
  let jac := if in_last_phase then jac else jac.set current_phase dx_dT
  (List.range current_phase).foldl (jacStep in_last_phase dx_dT xd) jac

/-- Column-major enumeration of the structurally stored entries
`(row, col, value)` of a dense column-list matrix. -/
def matrixEntries (jac : List (List ℚ)) : List (ℕ × ℕ × ℚ) :=
  (List.range jac.length).flatMap (fun j =>
    (List.range (jac.getD j []).length).map
      (fun i => (i, j, (jac.getD j []).getD i 0)))

/-- Eigen `MatrixXd::sparseView(reference, epsilon)`: keeps entry `v` unless
`|v| <= epsilon * |reference|` (it prunes the coefficients that are much
smaller than the reference). -/
def sparseView (jac : List (List ℚ)) (reference epsilon : ℚ) :
    List (ℕ × ℕ × ℚ) :=
  (matrixEntries jac).filter (fun e => !(decide (|e.2.2| ≤ epsilon * |reference|)))

/-- `ContactSchedule::GetJacobianOfPos`: the dense Jacobian converted with
`jac.sparseView(1.0, -1.0)` so that exact zeros stay structurally present. -/
def ContactSchedule.GetJacobianOfPos (s : ContactSchedule)
    (current_phase : ℕ) (dx_dT xd : List ℚ) : List (ℕ × ℕ × ℚ) :=
  sparseView (s.GetJacobianOfPosDense current_phase dx_dT xd) 1 (-1)

/-! ### Generic list lemmas about index-assignment loops -/

/-- A loop `for i in [0,n): l.set i (g i)` preserves the length. -/
theorem length_foldl_set {α : Type} (g : ℕ → α) (ns : List ℕ) (init : List α) :
    (ns.foldl (fun l i => l.set i (g i)) init).length = init.length := by
  induction ns generalizing init with
  | nil => rfl
  | cons a t ih => simp [List.foldl_cons, ih, List.length_set]

/-- Element description of the loop `for i in [0,n): l.set i (g i)`. -/
theorem getElem?_foldl_set {α : Type} (g : ℕ → α) (n j : ℕ) (init : List α) :
    ((List.range n).foldl (fun l i => l.set i (g i)) init)[j]? =
      if j < n ∧ j < init.length then some (g j) else init[j]? := by
  induction n with
  | zero =>
    rw [List.range_zero, List.foldl_nil, if_neg (by omega)]
  | succ m ih =>
    rw [List.range_succ, List.foldl_append]
    simp only [List.foldl_cons, List.foldl_nil]
    rw [List.getElem?_set, length_foldl_set, ih]
    rcases eq_or_ne m j with h | h
    · subst h
      by_cases hl : m < init.length
      · have h2 : m < m + 1 ∧ m < init.length := ⟨by omega, hl⟩
        simp [hl, h2]
      · have h2 : ¬ (m < m + 1 ∧ m < init.length) := by omega
        rw [if_pos rfl, if_neg hl, if_neg h2, List.getElem?_eq_none (by omega)]
    · rw [if_neg h]
      by_cases hj : j < m
      · simp [hj, Nat.lt_succ_of_lt hj]
      · have h1 : ¬ (j < m ∧ j < init.length) := by omega
        have h2 : ¬ (j < m + 1 ∧ j < init.length) := by omega
        rw [if_neg h1, if_neg h2]

/-- `getD` description of the loop `for i in [0,n): l.set i (g i)`. -/
theorem getD_foldl_set {α : Type} (g : ℕ → α) (n j : ℕ) (init : List α)
    (d : α) :
    ((List.range n).foldl (fun l i => l.set i (g i)) init).getD j d =
      if j < n ∧ j < init.length then g j else init.getD j d := by
  rw [List.getD_eq_getElem?_getD, getElem?_foldl_set]
  by_cases h : j < n ∧ j < init.length
  · simp [h]
  · simp [h, List.getD_eq_getElem?_getD]

/-- Reading a `map` over `List.range` at an index. -/
theorem getD_map_range {α : Type} (f : ℕ → α) (n i : ℕ) (d : α) :
    (((List.range n).map f).getD i d) = if i < n then f i else d := by
  rw [List.getD_eq_getElem?_getD, List.getElem?_map]
  by_cases h : i < n
  · rw [List.getElem?_range h]
    simp [h]
  · rw [List.getElem?_eq_none (by simpa using h)]
    simp [h]

/-- Reading every index of a list through `getD` reproduces the list. -/
theorem map_range_getD {α : Type} (l : List α) (d : α) :
    (List.range l.length).map (fun i => l.getD i d) = l := by
  apply List.ext_getElem (by simp)
  intro i h1 h2
  simp [List.getD_eq_getElem?_getD, List.getElem?_eq_getElem h2]

/-! ### Behaviour of `SetVariables` -/

/-- `SetVariables` preserves the number of stored durations. -/
theorem SetVariables_length (s : ContactSchedule) (x : List ℚ) :
    (s.SetVariables x).durations_.length = s.durations_.length := by
  simp only [ContactSchedule.SetVariables]
  rw [List.length_set, length_foldl_set]

/-- `SetVariables` only rewrites the duration list: the remaining state is
returned unchanged. -/
theorem SetVariables_frame (s : ContactSchedule) (x : List ℚ) :
    (s.SetVariables x).ee_ = s.ee_ ∧
    (s.SetVariables x).rows_ = s.rows_ ∧
    (s.SetVariables x).t_total_ = s.t_total_ ∧
    (s.SetVariables x).phase_duration_bounds_ = s.phase_duration_bounds_ :=
  ⟨rfl, rfl, rfl, rfl⟩

/-- Entrywise description of the duration list after `SetVariables`. -/
theorem SetVariables_getElem? (s : ContactSchedule) (x : List ℚ)
    (hne : s.durations_ ≠ []) (j : ℕ) :
    ((s.SetVariables x).durations_)[j]? =
      if j = s.durations_.length - 1 then some (s.t_total_ - x.sum)
      else if j < s.GetRows ∧ j < s.durations_.length then some (x.getD j 0)
      else s.durations_[j]? := by
  have hlen : 0 < s.durations_.length := List.length_pos.mpr hne
  simp only [ContactSchedule.SetVariables]
  rw [List.getElem?_set, length_foldl_set, getElem?_foldl_set]
  rcases eq_or_ne j (s.durations_.length - 1) with h | h
  · rw [if_pos h.symm, if_pos (by omega), if_pos h]
  · rw [if_neg (Ne.symm h), if_neg h]

/-- The recomputed last duration after `SetVariables`. -/
theorem SetVariables_back (s : ContactSchedule) (x : List ℚ)
    (hne : s.durations_ ≠ []) :
    (s.SetVariables x).back = s.t_total_ - x.sum := by
  have hlen : 0 < s.durations_.length := List.length_pos.mpr hne
  rw [ContactSchedule.back, List.getD_eq_getElem?_getD, SetVariables_length,
    SetVariables_getElem? s x hne, if_pos rfl, Option.getD_some]

/-- The first `GetRows()` durations after `SetVariables` come from the input
vector. -/
theorem SetVariables_getD_of_lt (s : ContactSchedule) (x : List ℚ)
    (hrows : s.rows_ = s.durations_.length - 1) (j : ℕ)
    (hj : j < s.GetRows) :
    ((s.SetVariables x).durations_).getD j 0 = x.getD j 0 := by
  have hne : s.durations_ ≠ [] := by
    intro h
    rw [ContactSchedule.GetRows, hrows, h] at hj
    simp at hj
  have hlen : 0 < s.durations_.length := List.length_pos.mpr hne
  have hjlen : j < s.durations_.length := by
    rw [ContactSchedule.GetRows, hrows] at hj
    omega
  have hjne : j ≠ s.durations_.length - 1 := by
    rw [ContactSchedule.GetRows, hrows] at hj
    omega
  rw [List.getD_eq_getElem?_getD, SetVariables_getElem? s x hne, if_neg hjne,
    if_pos ⟨hj, hjlen⟩, Option.getD_some]

/-- `GetValues` of the updated schedule reproduces the input vector. -/
theorem SetVariables_GetValues (s : ContactSchedule) (x : List ℚ)
    (hrows : s.rows_ = s.durations_.length - 1)
    (hx : x.length = s.GetRows) :
    (s.SetVariables x).GetValues = x := by
  have h1 : (s.SetVariables x).GetRows = s.GetRows := rfl
  rw [ContactSchedule.GetValues, h1]
  have h2 : ∀ i ∈ List.range s.GetRows,
      ((s.SetVariables x).durations_).getD i 0 = x.getD i 0 := by
    intro i hi
    exact SetVariables_getD_of_lt s x hrows i (List.mem_range.mp hi)
  rw [List.map_congr_left h2, ← hx, map_range_getD]

/-- The claim C1 scenario: `GetValues` lists all but the last stored
duration, in order. -/
theorem GetValues_eq_dropLast (s : ContactSchedule)
    (hrows : s.rows_ = s.durations_.length - 1) :
    s.GetValues = s.durations_.dropLast := by
  rw [ContactSchedule.GetValues, ContactSchedule.GetRows, hrows]
  apply List.ext_getElem (by simp)
  intro i h1 h2
  have hi : i < s.durations_.length - 1 := by simpa using h1
  have hilen : i < s.durations_.length := by omega
  rw [List.getElem_dropLast]
  simp only [List.getElem_map, List.getElem_range]
  rw [List.getD_eq_getElem?_getD, List.getElem?_eq_getElem hilen,
    Option.getD_some]

/-- Splitting a nonempty sum into all-but-last plus last. -/
theorem sum_dropLast_add_getLast (l : List ℚ) (h : l ≠ []) :
    l.dropLast.sum + l.getLast h = l.sum := by
  conv_rhs => rw [← List.dropLast_append_getLast h]
  rw [List.sum_append, List.sum_cons, List.sum_nil, add_zero]

/-- Two `ContactSchedule` states agreeing on every field are equal. -/
theorem ContactSchedule.eq_of_fields {a b : ContactSchedule}
    (h1 : a.ee_ = b.ee_) (h2 : a.rows_ = b.rows_)
    (h3 : a.durations_ = b.durations_) (h4 : a.t_total_ = b.t_total_)
    (h5 : a.phase_duration_bounds_ = b.phase_duration_bounds_) : a = b := by
  cases a; cases b; simp_all

/-- The concrete schedule of the spec scenario: 3 phases with initial
durations `[0.3, 0.4, 0.3]` and bounds `[0.1, 0.6]`. -/
def specSchedule : ContactSchedule :=
  mkContactSchedule 0 [3/10, 4/10, 3/10] (1/10) (6/10)

/-! ### Claims -/

/-- C1: after `SetVariables(x)` with `x` of length `GetRows()`, the sum of
`GetValues()` plus the derived last duration equals the total time; duration
`i` is set to `x(i)` for `i < GetRows()` and the last duration is recomputed
as `total_time - sum(x)`. -/
theorem contactSchedule_setVariables_sum_invariant (s : ContactSchedule)
    (x : List ℚ) (hne : s.durations_ ≠ [])
    (hrows : s.rows_ = s.durations_.length - 1)
    (hx : x.length = s.GetRows) :
    ((s.SetVariables x).GetValues).sum + (s.SetVariables x).back
        = s.t_total_ ∧
    (∀ i, i < s.GetRows →
      ((s.SetVariables x).durations_).getD i 0 = x.getD i 0) ∧
    (s.SetVariables x).back = s.t_total_ - x.sum := by
  have hb := SetVariables_back s x hne
  refine ⟨?_, ?_, hb⟩
  · rw [SetVariables_GetValues s x hrows hx, hb]
    ring
  · intro i hi
    exact SetVariables_getD_of_lt s x hrows i hi

/-- C1 witness: the spec scenario, `SetVariables([0.2, 0.5])` on initial
durations `[0.3, 0.4, 0.3]`. -/
theorem contactSchedule_setVariables_sum_invariant_witness :
    specSchedule.durations_ ≠ [] ∧
    specSchedule.rows_ = specSchedule.durations_.length - 1 ∧
    [(1:ℚ)/5, 1/2].length = specSchedule.GetRows ∧
    (((specSchedule.SetVariables [1/5, 1/2]).GetValues).sum +
        (specSchedule.SetVariables [1/5, 1/2]).back = specSchedule.t_total_ ∧
      (∀ i, i < specSchedule.GetRows →
        ((specSchedule.SetVariables [1/5, 1/2]).durations_).getD i 0 =
          [(1:ℚ)/5, 1/2].getD i 0) ∧
      (specSchedule.SetVariables [1/5, 1/2]).back =
        specSchedule.t_total_ - [(1:ℚ)/5, 1/2].sum) :=
  ⟨by decide, by decide, by decide,
    contactSchedule_setVariables_sum_invariant specSchedule [1/5, 1/2]
      (by decide) (by decide) (by decide)⟩

/-- C4: whenever the recomputed last duration `total_time - sum(x)` is not
strictly positive, the assertion `assert(durations_.back()>0)` inside
`SetVariables` fires and the evaluation aborts instead of completing
normally. -/
theorem contactSchedule_setVariables_assert_nonpositive (s : ContactSchedule)
    (x : List ℚ) (hne : s.durations_ ≠ [])
    (hnp : s.t_total_ - x.sum ≤ 0) :
    s.SetVariablesChecked x = none := by
  rw [ContactSchedule.SetVariablesChecked, if_neg]
  rw [SetVariables_back s x hne]
  exact not_lt.mpr hnp

/-- C4 witness: the spec scenario, `SetVariables([0.5, 0.5])` makes the
derived last duration `0.0` and is flagged. -/
theorem contactSchedule_setVariables_assert_nonpositive_witness :
    specSchedule.durations_ ≠ [] ∧
    specSchedule.t_total_ - [(1:ℚ)/2, 1/2].sum ≤ 0 ∧
    specSchedule.SetVariablesChecked [1/2, 1/2] = none :=
  ⟨by decide,
    by norm_num [specSchedule, mkContactSchedule],
    contactSchedule_setVariables_assert_nonpositive specSchedule [1/2, 1/2]
      (by decide) (by norm_num [specSchedule, mkContactSchedule])⟩

/-- C5: when the stored durations sum to the fixed total time (as after
construction and after every `SetVariables` call),
`SetVariables(GetValues())` leaves the whole schedule state unchanged. -/
theorem contactSchedule_setVariables_roundtrip (s : ContactSchedule)
    (hne : s.durations_ ≠ [])
    (hrows : s.rows_ = s.durations_.length - 1)
    (hsum : s.durations_.sum = s.t_total_) :
    s.SetVariables s.GetValues = s := by
  have hlen : 0 < s.durations_.length := List.length_pos.mpr hne
  refine ContactSchedule.eq_of_fields rfl rfl ?_ rfl rfl
  apply List.ext_getElem?
  intro j
  rw [SetVariables_getElem? s s.GetValues hne j]
  by_cases h : j = s.durations_.length - 1
  · subst h
    rw [if_pos rfl, List.getElem?_eq_getElem (show
      s.durations_.length - 1 < s.durations_.length by omega)]
    congr 1
    rw [← List.getLast_eq_getElem s.durations_ hne,
      GetValues_eq_dropLast s hrows]
    have hsplit := sum_dropLast_add_getLast s.durations_ hne
    rw [← hsum]
    linarith
  · rw [if_neg h]
    by_cases h2 : j < s.GetRows ∧ j < s.durations_.length
    · rw [if_pos h2, List.getElem?_eq_getElem h2.2]
      congr 1
      rw [ContactSchedule.GetValues, getD_map_range, if_pos h2.1,
        List.getD_eq_getElem?_getD, List.getElem?_eq_getElem h2.2,
        Option.getD_some]
    · rw [if_neg h2]

/-- C5 witness: the spec scenario schedule is left unchanged by
`SetVariables(GetValues())`. -/
theorem contactSchedule_setVariables_roundtrip_witness :
    specSchedule.durations_ ≠ [] ∧
    specSchedule.rows_ = specSchedule.durations_.length - 1 ∧
    specSchedule.durations_.sum = specSchedule.t_total_ ∧
    specSchedule.SetVariables specSchedule.GetValues = specSchedule :=
  ⟨by decide, by decide,
    by norm_num [specSchedule, mkContactSchedule],
    contactSchedule_setVariables_roundtrip specSchedule (by decide)
      (by decide) (by norm_num [specSchedule, mkContactSchedule])⟩

/-- C7: a schedule built from `n` timings has `GetRows() = n - 1`, and
`GetValues()` is a vector of exactly `GetRows()` entries whose `i`-th entry
is the `i`-th stored duration (the pure function touches no state). -/
theorem contactSchedule_getRows_getValues :
    (∀ ee (timings : List ℚ) mn mx, timings ≠ [] →
      (mkContactSchedule ee timings mn mx).GetRows = timings.length - 1) ∧
    (∀ s : ContactSchedule,
      s.GetValues.length = s.GetRows ∧
      ∀ i, i < s.GetRows → s.GetValues.getD i 0 = s.durations_.getD i 0) := by
  constructor
  · intro ee timings mn mx _
    rfl
  · intro s
    constructor
    · rw [ContactSchedule.GetValues, List.length_map, List.length_range]
    · intro i hi
      rw [ContactSchedule.GetValues, getD_map_range, if_pos hi]

/-- C7 witness: the spec scenario has `GetRows() = 2` and
`GetValues() = [0.3, 0.4]`. -/
theorem contactSchedule_getRows_getValues_witness :
    ([(3:ℚ)/10, 4/10, 3/10] ≠ []) ∧
    (mkContactSchedule 0 [(3:ℚ)/10, 4/10, 3/10] (1/10) (6/10)).GetRows =
      [(3:ℚ)/10, 4/10, 3/10].length - 1 ∧
    specSchedule.GetValues.length = specSchedule.GetRows ∧
    (∀ i, i < specSchedule.GetRows →
      specSchedule.GetValues.getD i 0 = specSchedule.durations_.getD i 0) :=
  ⟨by decide,
    contactSchedule_getRows_getValues.1 0 [(3:ℚ)/10, 4/10, 3/10] (1/10)
      (6/10) (by decide),
    (contactSchedule_getRows_getValues.2 specSchedule).1,
    (contactSchedule_getRows_getValues.2 specSchedule).2⟩

/-- C8: the total time is fixed at construction as the sum of the initial
timings; `SetVariables` never changes the stored total time, the
phase-duration bounds or the end-effector identity. -/
theorem contactSchedule_total_time_frame :
    (∀ ee (timings : List ℚ) mn mx,
      (mkContactSchedule ee timings mn mx).t_total_ = timings.sum) ∧
    (∀ (s : ContactSchedule) (x : List ℚ),
      (s.SetVariables x).t_total_ = s.t_total_ ∧
      (s.SetVariables x).phase_duration_bounds_ =
        s.phase_duration_bounds_ ∧
      (s.SetVariables x).ee_ = s.ee_) := by
  constructor
  · intro ee timings mn mx
    rw [List.sum_eq_foldl]
    rfl
  · intro s x
    exact ⟨rfl, rfl, rfl⟩

/-! ### Behaviour of `GetJacobianOfPos` -/

/-- Each pass of the `GetJacobianOfPos` loop is one column assignment. -/
theorem jacStep_eq (b : Bool) (dx_dT xd : List ℚ) :
    jacStep b dx_dT xd = fun jac phase =>
      jac.set phase
        (if b then
          List.zipWith (fun a c => a - c) (xd.map (fun v => -1 * v)) dx_dT
        else xd.map (fun v => -1 * v)) := by
  funext jac phase
  cases b with
  | false => rfl
  | true =>
    show (jac.set phase (xd.map (fun v => -1 * v))).set phase
        (List.zipWith (fun a c => a - c)
          ((jac.set phase (xd.map (fun v => -1 * v))).getD phase []) dx_dT) =
      jac.set phase
        (List.zipWith (fun a c => a - c) (xd.map (fun v => -1 * v)) dx_dT)
    by_cases hp : phase < jac.length
    · have hcol : (jac.set phase (xd.map (fun v => -1 * v))).getD phase [] =
          xd.map (fun v => -1 * v) := by
        rw [List.getD_eq_getElem?_getD, List.getElem?_set, if_pos rfl,
          if_pos hp, Option.getD_some]
      rw [hcol, List.set_set]
    · have hle : jac.length ≤ phase := le_of_not_lt hp
      have hle2 : (jac.set phase (xd.map (fun v => -1 * v))).length ≤ phase :=
        by rw [List.length_set]; exact hle
      rw [List.set_eq_of_length_le hle2, List.set_eq_of_length_le hle,
        List.set_eq_of_length_le hle]

/-- The dense Jacobian always has `GetRows()` columns. -/
theorem dense_length (s : ContactSchedule) (cp : ℕ) (dx_dT xd : List ℚ) :
    (s.GetJacobianOfPosDense cp dx_dT xd).length = s.GetRows := by
  simp only [ContactSchedule.GetJacobianOfPosDense]
  rw [jacStep_eq, length_foldl_set]
  cases hb : (cp == s.durations_.length - 1 : Bool) with
  | false => simp
  | true => simp

/-- Entrywise description of the dense Jacobian when `current_phase` is the
last phase. -/
theorem dense_getElem?_of_last (s : ContactSchedule) (cp : ℕ)
    (dx_dT xd : List ℚ) (hb : cp = s.durations_.length - 1) (j : ℕ) :
    (s.GetJacobianOfPosDense cp dx_dT xd)[j]? =
      if j < cp ∧ j < s.GetRows then
        some (List.zipWith (fun a c => a - c)
          (xd.map (fun v => -1 * v)) dx_dT)
      else (List.replicate s.GetRows (List.replicate xd.length 0))[j]? := by
  simp only [ContactSchedule.GetJacobianOfPosDense]
  rw [jacStep_eq]
  have hbb : (cp == s.durations_.length - 1 : Bool) = true := by
    simp [hb]
  rw [hbb]
  simp only [if_true]
  rw [getElem?_foldl_set, List.length_replicate]

/-- Entrywise description of the dense Jacobian when `current_phase` is not
the last phase. -/
theorem dense_getElem?_of_not_last (s : ContactSchedule) (cp : ℕ)
    (dx_dT xd : List ℚ) (hb : cp ≠ s.durations_.length - 1) (j : ℕ) :
    (s.GetJacobianOfPosDense cp dx_dT xd)[j]? =
      if j < cp ∧ j < s.GetRows then some (xd.map (fun v => -1 * v))
      else ((List.replicate s.GetRows
        (List.replicate xd.length 0)).set cp dx_dT)[j]? := by
  simp only [ContactSchedule.GetJacobianOfPosDense]
  rw [jacStep_eq]
  have hbb : (cp == s.durations_.length - 1 : Bool) = false := by
    simp [hb]
  rw [hbb]
  simp only [Bool.false_eq_true, if_false]
  rw [getElem?_foldl_set, List.length_set, List.length_replicate]

/-- C2: in `GetJacobianOfPos(current_phase, dx_dT, xd)`, every column for a
phase strictly before `current_phase` equals `-xd - dx_dT` when
`current_phase` is the last phase, and `-xd` otherwise. -/
theorem contactSchedule_jacobian_earlier_columns (s : ContactSchedule)
    (current_phase p : ℕ) (dx_dT xd : List ℚ)
    (hrows : s.rows_ = s.durations_.length - 1)
    (hcp : current_phase < s.durations_.length)
    (hp : p < current_phase) :
    (s.GetJacobianOfPosDense current_phase dx_dT xd).getD p [] =
      if current_phase = s.durations_.length - 1 then
        List.zipWith (fun a c => -a - c) xd dx_dT
      else xd.map (fun v => -v) := by
  have hpr : p < s.GetRows := by
    rw [ContactSchedule.GetRows, hrows]
    omega
  by_cases hb : current_phase = s.durations_.length - 1
  · rw [List.getD_eq_getElem?_getD, dense_getElem?_of_last s _ _ _ hb,
      if_pos ⟨hp, hpr⟩, Option.getD_some, if_pos hb, List.zipWith_map_left]
    simp [neg_one_mul]
  · rw [List.getD_eq_getElem?_getD, dense_getElem?_of_not_last s _ _ _ hb,
      if_pos ⟨hp, hpr⟩, Option.getD_some, if_neg hb]
    simp [neg_one_mul]

/-- C2 witness: the spec scenario with `current_phase = 2` (the last phase)
and `p = 0`, where the column is `-xd - dx_dT`. -/
theorem contactSchedule_jacobian_earlier_columns_witness :
    specSchedule.rows_ = specSchedule.durations_.length - 1 ∧
    2 < specSchedule.durations_.length ∧ 0 < 2 ∧
    (specSchedule.GetJacobianOfPosDense 2 [7, 8] [5, 6]).getD 0 [] =
      (if 2 = specSchedule.durations_.length - 1 then
        List.zipWith (fun a c => -a - c) [(5:ℚ), 6] [7, 8]
      else [(5:ℚ), 6].map (fun v => -v)) :=
  ⟨by decide, by decide, by decide,
    contactSchedule_jacobian_earlier_columns specSchedule 2 0 [7, 8] [5, 6]
      (by decide) (by decide) (by decide)⟩

/-- C3: the Jacobian column at `current_phase` equals `dx_dT` exactly when
`current_phase` is not the last phase; when it is the last phase the matrix
has only `GetRows()` columns, so no column for it exists. -/
theorem contactSchedule_jacobian_current_column (s : ContactSchedule)
    (current_phase : ℕ) (dx_dT xd : List ℚ)
    (hrows : s.rows_ = s.durations_.length - 1)
    (hcp : current_phase < s.durations_.length) :
    (current_phase ≠ s.durations_.length - 1 →
      (s.GetJacobianOfPosDense current_phase dx_dT xd).getD
        current_phase [] = dx_dT) ∧
    (current_phase = s.durations_.length - 1 →
      (s.GetJacobianOfPosDense current_phase dx_dT xd).length
          = s.GetRows ∧
      ¬ current_phase < s.GetRows) := by
  constructor
  · intro hb
    have hcr : current_phase < s.GetRows := by
      rw [ContactSchedule.GetRows, hrows]
      omega
    rw [List.getD_eq_getElem?_getD, dense_getElem?_of_not_last s _ _ _ hb,
      if_neg (fun h => absurd h.1 (lt_irrefl _)), List.getElem?_set,
      if_pos rfl, List.length_replicate, if_pos hcr, Option.getD_some]
  · intro hb
    refine ⟨dense_length s _ _ _, ?_⟩
    rw [ContactSchedule.GetRows, hrows]
    omega

/-- C3 witness: the spec scenario, once with `current_phase = 1` (column 1
is `dx_dT`) and once with `current_phase = 2` (no column exists for the last
phase). -/
theorem contactSchedule_jacobian_current_column_witness :
    specSchedule.rows_ = specSchedule.durations_.length - 1 ∧
    1 < specSchedule.durations_.length ∧
    2 < specSchedule.durations_.length ∧
    (specSchedule.GetJacobianOfPosDense 1 [7, 8] [5, 6]).getD 1 []
      = [(7:ℚ), 8] ∧
    ((specSchedule.GetJacobianOfPosDense 2 [7, 8] [5, 6]).length
        = specSchedule.GetRows ∧
      ¬ 2 < specSchedule.GetRows) :=
  ⟨by decide, by decide, by decide,
    (contactSchedule_jacobian_current_column specSchedule 1 [7, 8] [5, 6]
      (by decide) (by decide)).1 (by decide),
    (contactSchedule_jacobian_current_column specSchedule 2 [7, 8] [5, 6]
      (by decide) (by decide)).2 (by decide)⟩

/-- C9: the returned Jacobian depends only on the phase count (and row
count), `current_phase`, `dx_dT` and `xd` - never on the stored duration
values. -/
theorem contactSchedule_jacobian_duration_independent
    (s1 s2 : ContactSchedule) (current_phase : ℕ) (dx_dT xd : List ℚ)
    (h1 : s1.rows_ = s1.durations_.length - 1)
    (h2 : s2.rows_ = s2.durations_.length - 1)
    (hlen : s1.durations_.length = s2.durations_.length) :
    s1.GetJacobianOfPos current_phase dx_dT xd =
      s2.GetJacobianOfPos current_phase dx_dT xd := by
  have hrows : s1.rows_ = s2.rows_ := by rw [h1, h2, hlen]
  simp only [ContactSchedule.GetJacobianOfPos,
    ContactSchedule.GetJacobianOfPosDense, ContactSchedule.GetRows]
  rw [hrows, hlen]

/-- C9 witness: two 3-phase schedules with different duration values give
the same Jacobian. -/
theorem contactSchedule_jacobian_duration_independent_witness :
    specSchedule.rows_ = specSchedule.durations_.length - 1 ∧
    (mkContactSchedule 0 [(1:ℚ)/2, 1/4, 1/4] (1/10) (6/10)).rows_ =
      (mkContactSchedule 0 [(1:ℚ)/2, 1/4, 1/4] (1/10)
        (6/10)).durations_.length - 1 ∧
    specSchedule.durations_.length =
      (mkContactSchedule 0 [(1:ℚ)/2, 1/4, 1/4] (1/10)
        (6/10)).durations_.length ∧
    specSchedule.GetJacobianOfPos 1 [7, 8] [5, 6] =
      (mkContactSchedule 0 [(1:ℚ)/2, 1/4, 1/4] (1/10)
        (6/10)).GetJacobianOfPos 1 [7, 8] [5, 6] :=
  ⟨by decide, by decide, by decide,
    contactSchedule_jacobian_duration_independent specSchedule
      (mkContactSchedule 0 [(1:ℚ)/2, 1/4, 1/4] (1/10) (6/10)) 1 [7, 8]
      [5, 6] (by decide) (by decide) (by decide)⟩

/-! ### Sparsity of the returned Jacobian -/

/-- With `sparseView(1.0, -1.0)` no coefficient is pruned: the threshold is
negative while magnitudes are nonnegative. -/
theorem sparseView_keeps_all (jac : List (List ℚ)) :
    sparseView jac 1 (-1) = matrixEntries jac := by
  rw [sparseView]
  apply List.filter_eq_self.mpr
  intro e _
  have h0 := abs_nonneg e.2.2
  simp only [Bool.not_eq_true', decide_eq_false_iff_not, not_le]
  norm_num
  linarith

/-- Positions of the structurally stored entries of a matrix. -/
def patternOf (entries : List (ℕ × ℕ × ℚ)) : List (ℕ × ℕ) :=
  entries.map (fun e => (e.1, e.2.1))

/-- The stored-entry pattern of a dense column-list matrix covers each
column fully. -/
theorem patternOf_matrixEntries (jac : List (List ℚ)) :
    patternOf (matrixEntries jac) =
      (List.range jac.length).flatMap (fun j =>
        (List.range (jac.getD j []).length).map (fun i => (i, j))) := by
  rw [patternOf, matrixEntries, List.map_flatMap]
  apply List.flatMap_congr
  intro j _
  rw [List.map_map]
  rfl

/-- When `dx_dT` and `xd` have the same dimension, every column of the dense
Jacobian has that dimension. -/
theorem dense_col_length (s : ContactSchedule) (cp : ℕ) (dx_dT xd : List ℚ)
    (hdim : dx_dT.length = xd.length) (j : ℕ) :
    ((s.GetJacobianOfPosDense cp dx_dT xd).getD j []).length =
      if j < s.GetRows then xd.length else 0 := by
  by_cases hb : cp = s.durations_.length - 1
  · rw [List.getD_eq_getElem?_getD, dense_getElem?_of_last s _ _ _ hb]
    by_cases h : j < cp ∧ j < s.GetRows
    · rw [if_pos h, Option.getD_some, if_pos h.2, List.length_zipWith,
        List.length_map, hdim, min_self]
    · rw [if_neg h, List.getElem?_replicate]
      by_cases hj : j < s.GetRows
      · rw [if_pos hj, Option.getD_some, List.length_replicate, if_pos hj]
      · rw [if_neg hj, Option.getD_none, List.length_nil, if_neg hj]
  · rw [List.getD_eq_getElem?_getD, dense_getElem?_of_not_last s _ _ _ hb]
    by_cases h : j < cp ∧ j < s.GetRows
    · rw [if_pos h, Option.getD_some, if_pos h.2, List.length_map]
    · rw [if_neg h, List.getElem?_set]
      by_cases hcj : cp = j
      · subst hcj
        rw [if_pos rfl, List.length_replicate]
        by_cases hr : cp < s.GetRows
        · rw [if_pos hr, Option.getD_some, hdim, if_pos hr]
        · rw [if_neg hr, Option.getD_none, List.length_nil, if_neg hr]
      · rw [if_neg hcj, List.getElem?_replicate]
        by_cases hj : j < s.GetRows
        · rw [if_pos hj, Option.getD_some, List.length_replicate, if_pos hj]
        · rw [if_neg hj, Option.getD_none, List.length_nil, if_neg hj]

/-- The stored-entry pattern of the returned sparse Jacobian in canonical
form: all of `xd.rows() x GetRows()`. -/
theorem patternOf_getJacobianOfPos (s : ContactSchedule) (cp : ℕ)
    (dx_dT xd : List ℚ) (hdim : dx_dT.length = xd.length) :
    patternOf (s.GetJacobianOfPos cp dx_dT xd) =
      (List.range s.GetRows).flatMap (fun j =>
        (List.range xd.length).map (fun i => (i, j))) := by
  rw [ContactSchedule.GetJacobianOfPos, sparseView_keeps_all,
    patternOf_matrixEntries, dense_length]
  apply List.flatMap_congr
  intro j hj
  rw [dense_col_length s cp dx_dT xd hdim, if_pos (List.mem_range.mp hj)]

/-- C6: two `GetJacobianOfPos` calls with the same `current_phase` and the
same `dx_dT`/`xd` shapes on schedules with the same phase count produce the
same set of structurally stored entries, and every entry of the dense
matrix - exact zeros included - is structurally present in the returned
sparse matrix. -/
theorem contactSchedule_jacobian_sparsity_pattern (s1 s2 : ContactSchedule)
    (current_phase : ℕ) (dx1 xd1 dx2 xd2 : List ℚ)
    (h1 : s1.rows_ = s1.durations_.length - 1)
    (h2 : s2.rows_ = s2.durations_.length - 1)
    (hlen : s1.durations_.length = s2.durations_.length)
    (hdim1 : dx1.length = xd1.length) (hdim2 : dx2.length = xd2.length)
    (hxd : xd1.length = xd2.length) :
    patternOf (s1.GetJacobianOfPos current_phase dx1 xd1) =
      patternOf (s2.GetJacobianOfPos current_phase dx2 xd2) ∧
    s1.GetJacobianOfPos current_phase dx1 xd1 =
      matrixEntries (s1.GetJacobianOfPosDense current_phase dx1 xd1) := by
  refine ⟨?_, sparseView_keeps_all _⟩
  rw [patternOf_getJacobianOfPos s1 _ _ _ hdim1,
    patternOf_getJacobianOfPos s2 _ _ _ hdim2, hxd]
  have hr : s1.GetRows = s2.GetRows := by
    rw [ContactSchedule.GetRows, ContactSchedule.GetRows, h1, h2, hlen]
  rw [hr]

/-- C6 witness: two 3-phase schedules with different durations and
different (equal-shape) inputs, one of which makes entries exactly zero. -/
theorem contactSchedule_jacobian_sparsity_pattern_witness :
    specSchedule.rows_ = specSchedule.durations_.length - 1 ∧
    (mkContactSchedule 0 [(1:ℚ)/2, 1/4, 1/4] (1/10) (6/10)).rows_ =
      (mkContactSchedule 0 [(1:ℚ)/2, 1/4, 1/4] (1/10)
        (6/10)).durations_.length - 1 ∧
    specSchedule.durations_.length =
      (mkContactSchedule 0 [(1:ℚ)/2, 1/4, 1/4] (1/10)
        (6/10)).durations_.length ∧
    [(7:ℚ), 8].length = [(5:ℚ), 6].length ∧
    [(0:ℚ), 0].length = [(0:ℚ), 3].length ∧
    [(5:ℚ), 6].length = [(0:ℚ), 3].length ∧
    (patternOf (specSchedule.GetJacobianOfPos 1 [7, 8] [5, 6]) =
      patternOf ((mkContactSchedule 0 [(1:ℚ)/2, 1/4, 1/4] (1/10)
        (6/10)).GetJacobianOfPos 1 [0, 0] [0, 3]) ∧
    specSchedule.GetJacobianOfPos 1 [7, 8] [5, 6] =
      matrixEntries (specSchedule.GetJacobianOfPosDense 1 [7, 8] [5, 6])) :=
  ⟨by decide, by decide, by decide, by decide, by decide, by decide,
    contactSchedule_jacobian_sparsity_pattern specSchedule
      (mkContactSchedule 0 [(1:ℚ)/2, 1/4, 1/4] (1/10) (6/10)) 1 [7, 8]
      [5, 6] [0, 0] [0, 3] (by decide) (by decide) (by decide) (by decide)
      (by decide) (by decide)⟩

/-! ### EndeffectorsBool (endeffectors.h) -/

/-- State of `xpp::EndeffectorsBool`: the container `ee_` of per-end-effector
flags inherited from `Endeffectors<bool>`. -/
structure EndeffectorsBool where
  ee_ : List Bool
deriving DecidableEq, Repr

/-- Modelled from the spec: the implementation of the base container
`Endeffectors<T>` (`impl/endeffectors-impl.h`) is not among the sources;
per the spec it is a fixed-size order-preserving per-end-effector mapping,
so `GetCount` returns the number of end-effectors it holds. -/
def EndeffectorsBool.GetCount (b : EndeffectorsBool) : ℕ :=
  b.ee_.length

/-- Modelled from the spec: `GetEEsOrdered` returns all end-effector IDs
`E0 -> EN` in order (IDs are modelled as naturals). -/
def EndeffectorsBool.GetEEsOrdered (b : EndeffectorsBool) : List ℕ :=
  List.range b.GetCount

/-- Modelled from the spec: `At(ee)` is per-element access into the
container. -/
def EndeffectorsBool.At (b : EndeffectorsBool) (ee : ℕ) : Bool :=
  b.ee_.getD ee false

/-- Modelled from the spec: `EndeffectorsBool(n_ee)` builds a container of
`n_ee` value-initialized (`false`) flags. -/
def mkEndeffectorsBool (n_ee : ℕ) : EndeffectorsBool :=
  ⟨List.replicate n_ee false⟩

/-- `EndeffectorsBool::Invert`: `ret.At(ee) = !At(ee)` for every ordered
end-effector of a freshly constructed `ret(GetCount())`. -/
def EndeffectorsBool.Invert (b : EndeffectorsBool) : EndeffectorsBool :=
  let ret := mkEndeffectorsBool b.GetCount
  ⟨b.GetEEsOrdered.foldl (fun l ee => l.set ee (!(b.At ee))) ret.ee_⟩

/-- `EndeffectorsBool::GetTrueCount`: counts the end-effectors whose flag is
set. -/
def EndeffectorsBool.GetTrueCount (b : EndeffectorsBool) : ℕ :=
  b.GetEEsOrdered.foldl (fun count ee => if b.At ee then count + 1 else count)
    0

/-- A conditional-increment loop computes `countP`. -/
theorem foldl_count (p : ℕ → Bool) (xs : List ℕ) (c : ℕ) :
    xs.foldl (fun count ee => if p ee then count + 1 else count) c =
      c + xs.countP p := by
  induction xs generalizing c with
  | nil => simp
  | cons a t ih =>
    rw [List.foldl_cons, ih, List.countP_cons]
    by_cases h : p a
    · rw [if_pos h, if_pos h]
      omega
    · rw [if_neg h, if_neg h]
      omega

/-- Complementary Boolean predicates split the length of a list. -/
theorem countP_add_countP_not (p : ℕ → Bool) (l : List ℕ) :
    l.countP p + l.countP (fun a => !(p a)) = l.length := by
  induction l with
  | nil => rfl
  | cons a t ih =>
    rw [List.countP_cons, List.countP_cons, List.length_cons]
    cases h : p a <;> simp [h] <;> omega

/-- `Invert` preserves the element count. -/
theorem Invert_GetCount (b : EndeffectorsBool) :
    b.Invert.GetCount = b.GetCount := by
  simp only [EndeffectorsBool.Invert, EndeffectorsBool.GetCount,
    EndeffectorsBool.GetEEsOrdered, mkEndeffectorsBool]
  rw [length_foldl_set, List.length_replicate]

/-- Elementwise description of `Invert`. -/
theorem Invert_At (b : EndeffectorsBool) (j : ℕ) :
    b.Invert.At j = if j < b.GetCount then !(b.At j) else false := by
  simp only [EndeffectorsBool.Invert, EndeffectorsBool.At,
    EndeffectorsBool.GetEEsOrdered, mkEndeffectorsBool]
  rw [getD_foldl_set, List.length_replicate]
  by_cases h : j < b.GetCount
  · rw [if_pos ⟨h, h⟩, if_pos h]
  · rw [if_neg (fun hc => h hc.1), if_neg h, List.getD_eq_getElem?_getD,
      List.getElem?_replicate, if_neg h, Option.getD_none]

/-- Out-of-range access reads the default flag. -/
theorem At_of_le (b : EndeffectorsBool) (j : ℕ) (h : b.GetCount ≤ j) :
    b.At j = false := by
  rw [EndeffectorsBool.At, List.getD_eq_getElem?_getD,
    List.getElem?_eq_none h, Option.getD_none]

/-- `GetTrueCount` counts the set flags among the ordered end-effectors. -/
theorem GetTrueCount_eq_countP (b : EndeffectorsBool) :
    b.GetTrueCount = (List.range b.GetCount).countP (fun ee => b.At ee) := by
  rw [EndeffectorsBool.GetTrueCount, EndeffectorsBool.GetEEsOrdered,
    foldl_count, Nat.zero_add]

/-- C10: `Invert` is an elementwise involution that preserves the element
count, and the set flags of `b` and `b.Invert()` together account for every
end-effector. -/
theorem endeffectorsBool_invert_involution (b : EndeffectorsBool) :
    (∀ ee, b.Invert.Invert.At ee = b.At ee) ∧
    b.Invert.GetCount = b.GetCount ∧
    b.GetTrueCount + b.Invert.GetTrueCount = b.GetCount := by
  have hc := Invert_GetCount b
  refine ⟨?_, hc, ?_⟩
  · intro ee
    rw [Invert_At, Invert_At, hc]
    by_cases h : ee < b.GetCount
    · rw [if_pos h, if_pos h, Bool.not_not]
    · rw [if_neg h, At_of_le b ee (le_of_not_lt h)]
  · rw [GetTrueCount_eq_countP, GetTrueCount_eq_countP, hc]
    have hcong : (List.range b.GetCount).countP (fun ee => b.Invert.At ee) =
        (List.range b.GetCount).countP (fun ee => !(b.At ee)) := by
      apply List.countP_congr
      intro x hx
      rw [Invert_At, if_pos (List.mem_range.mp hx)]
    rw [hcong, countP_add_countP_not, List.length_range]
